import Mathlib

/-!
Shallow embedding of the webmention.js client-side widget
(PlaidWeb/webmention.js) and proofs about its core pipeline:
URL normalization, request construction, response classification,
deduplication, text formatting and HTML rendering.

JavaScript strings are modelled as lists of characters (`JsStr`).
Each definition mirrors a function of the source; the doc comment of a
definition names the file and lines it embeds.
-/

namespace Webmention

/-- JavaScript strings, modelled as lists of Unicode scalar values. -/
abbrev JsStr := List Char

/-- Conversion from Lean string literals to the `JsStr` model. -/
def jstr (s : String) : JsStr := s.data

/-- Boolean test that `pat` is an initial segment of `l`
(the JS `String.prototype.startsWith` shape, used to define `indexOf`). -/
def leadsWith : JsStr → JsStr → Bool
  | [], _ => true
  | _ :: _, [] => false
  | p :: ps, c :: cs => p == c && leadsWith ps cs

/-- JS `String.prototype.indexOf(pat)`: index of the first occurrence of
`pat` in `l`, and `-1` when there is none. -/
def jsIndexOf (l pat : JsStr) : Int :=
  match (List.range (l.length + 1)).find? (fun i => leadsWith pat (l.drop i)) with
  | some i => (i : Int)
  | none => -1

/-- Boolean form: does `l` contain `pat` as a contiguous segment? -/
def containsSeg (pat l : JsStr) : Bool :=
  (List.range (l.length + 1)).any (fun i => leadsWith pat (l.drop i))

/-- JS one-argument `String.prototype.substr(start)`: for `start < 0` the
start index is `max (length + start) 0` (ECMA-262 `String.prototype.substr`). -/
def jsSubstr (l : JsStr) (start : Int) : JsStr :=
  if start < 0 then l.drop (l.length - (-start).toNat)
  else l.drop start.toNat

/-- `stripurl`, from `src/static/webmention.js` lines 180-182 (identical in
`src/unnamed/part_000` 81-83 and `src/unnamed/part_001` 251-253):
`url.substr(url.indexOf('//'))`. -/
def stripurl (url : JsStr) : JsStr :=
  jsSubstr url (jsIndexOf url (jstr "//"))

/-- JS global single-character regexp replacement
`text.replace(/c/g, rep)`: every occurrence of the character `c`
is replaced by the string `rep`. -/
def replaceChar (c : Char) (rep : JsStr) (l : JsStr) : JsStr :=
  (l.map (fun x => if x = c then rep else [x])).flatten

/-- `entities`, from `src/static/webmention.js` lines 149-154 (identical in
`src/unnamed/part_001` 190-195): four sequential global replacements,
ampersand first. -/
def entities (text : JsStr) : JsStr :=
  replaceChar '"' (jstr "&quot;")
    (replaceChar '>' (jstr "&gt;")
      (replaceChar '<' (jstr "&lt;")
        (replaceChar '&' (jstr "&amp;") text)))

/-- `true` when the text contains none of the four characters `entities`
rewrites. -/
def noSpecialChars (text : JsStr) : Bool :=
  text.all (fun c => !(c == '&' || c == '<' || c == '>' || c == '"'))

/-- The character class of the JS regexp `\s` (ECMA-262 WhiteSpace and
LineTerminator productions), used by `text.replace(/\s+/g, ' ')`. -/
def isJsSpace (c : Char) : Bool :=
  c == ' ' || c == '\t' || c == '\n' || c.toNat == 0x0b || c.toNat == 0x0c ||
  c == '\r' || c.toNat == 0xa0 || c.toNat == 0x1680 ||
  (0x2000 ≤ c.toNat && c.toNat ≤ 0x200a) ||
  c.toNat == 0x2028 || c.toNat == 0x2029 || c.toNat == 0x202f ||
  c.toNat == 0x205f || c.toNat == 0x3000 || c.toNat == 0xfeff

/-- Recursion core of `collapseWs`: the flag records whether the previous
character belonged to a whitespace run already replaced by a space. -/
def collapseWsAux : Bool → JsStr → JsStr
  | _, [] => []
  | inRun, c :: rest =>
    if isJsSpace c then
      if inRun then collapseWsAux true rest
      else ' ' :: collapseWsAux true rest
    else c :: collapseWsAux false rest

/-- JS `text.replace(/\s+/g, ' ')`: each maximal run of whitespace becomes a
single space. -/
def collapseWs (l : JsStr) : JsStr := collapseWsAux false l

/-- JS `str.split(sep)` for a one-character separator, without limit:
splits on every occurrence, keeping empty fields. -/
def splitChar (sep : Char) : JsStr → List JsStr
  | [] => [[]]
  | c :: rest =>
    if c = sep then [] :: splitChar sep rest
    else
      match splitChar sep rest with
      | [] => [[c]]
      | w :: ws => (c :: w) :: ws

/-- JS `words.join(sep)` for a one-character separator. -/
def joinSep (sep : Char) (ws : List JsStr) : JsStr :=
  List.intercalate [sep] ws

/-- The truncation step of `extractComment`, from `src/static/webmention.js`
lines 204-212 (identical in `src/unnamed/part_001` 288-295), applied to the
already-escaped text.  `textMaxWords` is the `wordcount` configuration value
read as a number (`none` when unset); the JS guard `if (textMaxWords)` is
false for the number `0`.  The body mirrors
`text.replace(/\s+/g,' ').split(' ', textMaxWords + 1)`,
`words[textMaxWords - 1] += '&hellip;'`, `words.slice(0, textMaxWords)`,
`words.join(' ')`. -/
def truncateWords (textMaxWords : Option Nat) (text : JsStr) : JsStr :=
  match textMaxWords with
  | none => text
  | some n =>
    if n = 0 then text
    else
      let words := (splitChar ' ' (collapseWs text)).take (n + 1)
      if n < words.length then
        joinSep ' ' ((words.set (n - 1) (words.getD (n - 1) [] ++ jstr "&hellip;")).take n)
      else text

/-- The `author` record of a mention (JF2): optional `name` and `photo`. -/
structure Author where
  name : Option JsStr
  photo : Option JsStr
deriving DecidableEq

/-- The `content` record of a mention (JF2): optional plain text. -/
structure Content where
  text : Option JsStr
deriving DecidableEq

/-- A mention record as received from the webmention.io API (documented as
`@typedef Reaction` in `src/unnamed/part_001` lines 339-350): `url` and
`wm-source` are always present strings; the rest is optional. -/
structure Mention where
  url : JsStr
  wmSource : JsStr
  wmProperty : Option JsStr
  author : Option Author
  content : Option Content
  rsvp : Option JsStr
  name : Option JsStr
deriving DecidableEq

/-- JS truthiness of an optional string field: present and non-empty. -/
def truthy : Option JsStr → Bool
  | some s => !s.isEmpty
  | none => false

/-- The deduplication key of a mention: `stripurl(r.url)`
(`src/static/webmention.js` line 191). -/
def dedupeKey (r : Mention) : JsStr := stripurl r.url

/-- `dedupe`, from `src/static/webmention.js` lines 185-199 (identical in
`src/unnamed/part_001` 261-277): one forward pass; `filtered` collects the
output, `seen` the set of keys already pushed (a JS object used as a set,
modelled as the list of its keys). -/
def dedupe (mentions : List Mention) : List Mention :=
  (mentions.foldl
    (fun (st : List Mention × List JsStr) r =>
      let source := stripurl r.url
      if source ∈ st.2 then st
      else (st.1 ++ [r], source :: st.2))
    ([], [])).1

/-- Modelled from the spec: "emits a mention if and only if no earlier
mention in the list has the same key ... first occurrence wins; later
duplicates are discarded" — keep the head, delete every later mention with
the head's key, recurse. -/
def dedupeSpec : List Mention → List Mention
  | [] => []
  | r :: rest =>
    r :: dedupeSpec (rest.filter (fun x => dedupeKey x != dedupeKey r))
termination_by l => l.length
decreasing_by
  simp only [List.length_cons]
  exact Nat.lt_succ_of_le (List.length_filter_le _ _)

/-- The two arrays the classifier pushes into
(`comments` and `collects` in the source). -/
inductive Dest where
  | comments
  | collects
deriving DecidableEq

/-- The `mapping` object, from `src/unnamed/part_001` lines 422-431:
`wm-property` value → destination array.  (The older copy in
`src/static/webmention.js` lines 320-327 lacks the `follow-of` entry.) -/
def mappingDest (p : JsStr) : Option Dest :=
  if p = jstr "in-reply-to" then some Dest.comments
  else if p = jstr "like-of" then some Dest.collects
  else if p = jstr "repost-of" then some Dest.collects
  else if p = jstr "bookmark-of" then some Dest.collects
  else if p = jstr "follow-of" then some Dest.collects
  else if p = jstr "mention-of" then some Dest.comments
  else if p = jstr "rsvp" then some Dest.comments
  else none

/-- `mapping[c['wm-property']]` with an absent property giving `undefined`. -/
def destOf (m : Mention) : Option Dest :=
  match m.wmProperty with
  | some p => mappingDest p
  | none => none

/-- The classification loop, from `src/unnamed/part_001` lines 413-439:
`comments` and `collects` start empty; when `commentsAreReactions` is
truthy the statement `comments = collects` makes the two names alias one
array, so every push lands in that single array — modelled by returning
the same list in both components.  `json.children.forEach` then pushes
each child with a mapped `wm-property` onto its destination, in input
order. -/
def classify (merge : Bool) (children : List Mention) : List Mention × List Mention :=
  if merge then
    let store := children.foldl
      (fun acc c => match destOf c with
        | some _ => acc ++ [c]
        | none => acc) []
    (store, store)
  else
    children.foldl
      (fun st c =>
        match destOf c with
        | some Dest.comments => (st.1 ++ [c], st.2)
        | some Dest.collects => (st.1, st.2 ++ [c])
        | none => st)
      ([], [])

/-- The configuration the renderer reads: `prevent-spoofing`
(as the derived `mentionSource` choice) and `wordcount`. -/
structure Cfg where
  useWmSource : Bool
  textMaxWords : Option Nat

/-- `r[mentionSource]`, where `mentionSource` is `'wm-source'` when
`prevent-spoofing` is truthy and `'url'` otherwise
(`src/static/webmention.js` line 117). -/
def mentionLink (cfg : Cfg) (r : Mention) : JsStr :=
  if cfg.useWmSource then r.wmSource else r.url

/-- The `reactTitle` table (`src/static/webmention.js` lines 122-130), with
the i18next shim `t` being the identity. -/
def reactTitle (p : JsStr) : Option JsStr :=
  if p = jstr "in-reply-to" then some (jstr "replied")
  else if p = jstr "like-of" then some (jstr "liked")
  else if p = jstr "repost-of" then some (jstr "reposted")
  else if p = jstr "bookmark-of" then some (jstr "bookmarked")
  else if p = jstr "mention-of" then some (jstr "mentioned")
  else if p = jstr "rsvp" then some (jstr "RSVPed")
  else if p = jstr "follow-of" then some (jstr "followed")
  else none

/-- The `reactEmoji` table (`src/static/webmention.js` lines 132-140). -/
def reactEmoji (p : JsStr) : Option JsStr :=
  if p = jstr "in-reply-to" then some (jstr "💬")
  else if p = jstr "like-of" then some (jstr "❤️")
  else if p = jstr "repost-of" then some (jstr "🔄")
  else if p = jstr "bookmark-of" then some (jstr "⭐️")
  else if p = jstr "mention-of" then some (jstr "💬")
  else if p = jstr "rsvp" then some (jstr "📅")
  else if p = jstr "follow-of" then some (jstr "🐜")
  else none

/-- The `rsvpEmoji` table (`src/static/webmention.js` lines 142-147). -/
def rsvpEmoji (p : JsStr) : Option JsStr :=
  if p = jstr "yes" then some (jstr "✅")
  else if p = jstr "no" then some (jstr "❌")
  else if p = jstr "interested" then some (jstr "💡")
  else if p = jstr "maybe" then some (jstr "💭")
  else none

/-- The truthy author name `r.author && r.author.name`
(`some` exactly when both tests pass). -/
def authorNameTruthy (r : Mention) : Option JsStr :=
  match r.author with
  | some a =>
    match a.name with
    | some n => if n.isEmpty then none else some n
    | none => none
  | none => none

/-- The truthy author photo `r.author && r.author.photo`. -/
def authorPhotoTruthy (r : Mention) : Option JsStr :=
  match r.author with
  | some a =>
    match a.photo with
    | some p => if p.isEmpty then none else some p
    | none => none
  | none => none

/-- The truthy comment body `r.content && r.content.text`. -/
def contentTextTruthy (r : Mention) : Option JsStr :=
  match r.content with
  | some ct =>
    match ct.text with
    | some s => if s.isEmpty then none else some s
    | none => none
  | none => none

/-- `r.url.split('/')[2]` — the hostname fallback for a missing author
name. -/
def hostOf (r : Mention) : JsStr := (splitChar '/' r.url).getD 2 []

/-- `who`, from `src/static/webmention.js` lines 157-159. -/
def whoOf (r : Mention) : JsStr :=
  entities (match authorNameTruthy r with
    | some n => n
    | none => hostOf r)

/-- `c.content.text` as accessed (unguarded) inside `extractComment`;
every caller first checks `c.content && c.content.text`. -/
def rawContentText (c : Mention) : JsStr :=
  match c.content with
  | some ct => ct.text.getD []
  | none => []

/-- `extractComment`, from `src/static/webmention.js` lines 201-215:
escape the body text, then apply the word-budget truncation. -/
def extractComment (cfg : Cfg) (c : Mention) : JsStr :=
  truncateWords cfg.textMaxWords (entities (rawContentText c))

/-- `reactTitle[r['wm-property']] || t('reacted')`
(`src/static/webmention.js` line 160). -/
def verbOf (r : Mention) : JsStr :=
  match r.wmProperty with
  | some p => (reactTitle p).getD (jstr "reacted")
  | none => jstr "reacted"

/-- `response`, from `src/static/webmention.js` lines 160-163: the verb
for the `wm-property` (generic fallback `'reacted'`), suffixed for a
non-comment carrying body text with `": " + extractComment(r)`. -/
def responseOf (cfg : Cfg) (r : Mention) (isComment : Bool) : JsStr :=
  match contentTextTruthy r with
  | some _ =>
    if isComment then verbOf r else verbOf r ++ jstr ": " ++ extractComment cfg r
  | none => verbOf r

/-- The `<img>` fragment of `reactImage`
(`src/static/webmention.js` lines 166-169), empty without a truthy
author photo. -/
def photoImgOf (r : Mention) : JsStr :=
  match authorPhotoTruthy r with
  | some photo =>
    jstr "<img src=\"" ++ entities photo ++
    jstr "\" loading=\"lazy\" decoding=\"async\" alt=\"" ++ whoOf r ++ jstr "\">"
  | none => []

/-- `reactEmoji[r['wm-property']] || '💥'`
(`src/static/webmention.js` line 170). -/
def emojiOf (r : Mention) : JsStr :=
  match r.wmProperty with
  | some p => (reactEmoji p).getD (jstr "💥")
  | none => jstr "💥"

/-- The `<sub>` RSVP fragment (`src/static/webmention.js` lines 171-173):
present only when `r.rsvp` is truthy and mapped by `rsvpEmoji`. -/
def rsvpSubOf (r : Mention) : JsStr :=
  match r.rsvp with
  | some v =>
    if v.isEmpty then []
    else
      match rsvpEmoji v with
      | some e => jstr "<sub>" ++ e ++ jstr "</sub>"
      | none => []
  | none => []

/-- `reactImage`, from `src/static/webmention.js` lines 156-177: the
concatenation, in source order, of the opening anchor (title and raw
`href`), the optional photo, the emoji, the optional RSVP subscript and
the closing tag. -/
def reactImage (cfg : Cfg) (r : Mention) (isComment : Bool) : JsStr :=
  jstr "<a class=\"reaction\" rel=\"nofollow ugc\" title=\"" ++ whoOf r ++
  jstr " " ++ responseOf cfg r isComment ++ jstr "\" href=\"" ++
  mentionLink cfg r ++ jstr "\">" ++
  photoImgOf r ++ emojiOf r ++ rsvpSubOf r ++ jstr "</a>"

/-- The escaped author-name-or-hostname label of the comment source link
(`src/static/webmention.js` lines 226-230). -/
def sourceLabelOf (c : Mention) : JsStr :=
  match authorNameTruthy c with
  | some n => entities n
  | none => entities (hostOf c)

/-- The `linkclass`/`linktext` pair of a comment item
(`src/static/webmention.js` lines 233-244): a truthy explicit `name` is
used raw, else a truthy body text is escaped and truncated, else the
placeholder. -/
def linkClassText (cfg : Cfg) (c : Mention) : JsStr × JsStr :=
  match c.name with
  | some nm =>
    if nm.isEmpty then
      match contentTextTruthy c with
      | some _ => (jstr "text", extractComment cfg c)
      | none => (jstr "name", jstr "(mention)")
    else (jstr "name", nm)
  | none =>
    match contentTextTruthy c with
    | some _ => (jstr "text", extractComment cfg c)
    | none => (jstr "name", jstr "(mention)")

/-- One `<li>` of the comments list, from the `forEach` body of
`formatComments` (`src/static/webmention.js` lines 219-249). -/
def commentItem (cfg : Cfg) (c : Mention) : JsStr :=
  jstr "<li>" ++ reactImage cfg c true ++
  jstr " <a class=\"source\" rel=\"nofollow ugc\" href=\"" ++
  mentionLink cfg c ++ jstr "\">" ++ sourceLabelOf c ++ jstr "</a>: " ++
  jstr "<span class=\"" ++ (linkClassText cfg c).1 ++ jstr "\">" ++
  (linkClassText cfg c).2 ++ jstr "</span>" ++ jstr "</li>"

/-- `formatComments`, from `src/static/webmention.js` lines 217-253. -/
def formatComments (cfg : Cfg) (comments : List Mention) : JsStr :=
  jstr "<h2>Responses</h2><ul class=\"comments\">" ++
  (comments.map (commentItem cfg)).flatten ++ jstr "</ul>"

/-- `formatReactions`, from `src/static/webmention.js` lines 255-263
(the source never appends a closing `</ul>` here). -/
def formatReactions (cfg : Cfg) (reacts : List Mention) : JsStr :=
  jstr "<h2>Reactions</h2><ul class=\"reacts\">" ++
  (reacts.map (fun r => reactImage cfg r false)).flatten

/-- The body of the `getData` callback, from `src/static/webmention.js`
lines 311-347: classify, then render each non-empty bucket.  The JS guard
`comments.length > 0 && comments !== collects` compares array references:
`comments !== collects` holds exactly when the aliasing assignment guarded
by `commentsAreReactions` did not run, i.e. when `merge` is false. -/
def renderPage (cfg : Cfg) (merge : Bool) (children : List Mention) : JsStr :=
  let buckets := classify merge children
  (if buckets.1.length > 0 && !merge then formatComments cfg (dedupe buckets.1)
   else []) ++
  (if buckets.2.length > 0 then formatReactions cfg (dedupe buckets.2)
   else [])

/-- The unreserved characters of `encodeURIComponent`
(ECMA-262: alphanumeric and `- _ . ! ~ * ' ( )`). -/
def uriUnreserved (c : Char) : Bool :=
  c.isAlphanum || c == '-' || c == '_' || c == '.' || c == '!' ||
  c == '~' || c == '*' || c == Char.ofNat 39 || c == '(' || c == ')'

/-- Upper-case hexadecimal digit of a value below 16. -/
def hexDigitChar (n : Nat) : Char := (jstr "0123456789ABCDEF").getD n '0'

/-- `%XX` escape of one byte. -/
def percentByte (b : Nat) : JsStr :=
  ['%', hexDigitChar (b / 16 % 16), hexDigitChar (b % 16)]

/-- UTF-8 bytes of a Unicode scalar value. -/
def utf8Bytes (c : Char) : List Nat :=
  let n := c.toNat
  if n < 0x80 then [n]
  else if n < 0x800 then [0xc0 + n / 64, 0x80 + n % 64]
  else if n < 0x10000 then [0xe0 + n / 4096, 0x80 + n / 64 % 64, 0x80 + n % 64]
  else [0xf0 + n / 262144, 0x80 + n / 4096 % 64, 0x80 + n / 64 % 64,
        0x80 + n % 64]

/-- The ECMAScript builtin `encodeURIComponent`: unreserved characters pass
through, every other character becomes the `%XX` escapes of its UTF-8
bytes. -/
def encodeURIComponent (s : JsStr) : JsStr :=
  (s.map (fun c =>
    if uriUnreserved c then [c]
    else ((utf8Bytes c).map percentByte).flatten)).flatten

/-- The two `target[]` parameters appended per page, from
`src/static/webmention.js` lines 306-309. -/
def targetParams (path : JsStr) : JsStr :=
  jstr "&target[]=" ++ encodeURIComponent (jstr "http:" ++ path) ++
  jstr "&target[]=" ++ encodeURIComponent (jstr "https:" ++ path)

/-- `apiURL`, from `src/static/webmention.js` lines 303-309: the fixed
endpoint with `per-page`, `sort-by` and `sort-dir`, then the `forEach`
appending two encoded `target[]` parameters per page. -/
def apiURL (maxWebmentions sortBy sortDir : JsStr) (pages : List JsStr) : JsStr :=
  pages.foldl (fun acc path => acc ++ targetParams path)
    (jstr "https://webmention.io/api/mentions.jf2?per-page=" ++ maxWebmentions ++
     jstr "&sort-by=" ++ sortBy ++ jstr "&sort-dir=" ++ sortDir)

/-- The JSON document the API returns: an object with a `children` array. -/
structure Response where
  children : List Mention
deriving DecidableEq

/-- Outcome of the one outbound request: a response with a status and a
body (`none` body = the JSON parse fails), or a thrown transport error. -/
inductive FetchOutcome where
  | ok (status : Nat) (body : Option Response)
  | transportError
deriving DecidableEq

/-- The promise chain inside `getData`, from `src/static/webmention.js`
lines 267-275: a non-2xx status rejects with the status text, `json()`
rejects on malformed JSON, a transport error rejects the chain outright;
an `Except.error` value models a rejected promise. -/
def fetchChain : FetchOutcome → Except JsStr Response
  | FetchOutcome.ok status body =>
    if 200 ≤ status && status < 300 then
      match body with
      | some r => Except.ok r
      | none => Except.error (jstr "malformed JSON")
    else Except.error (jstr "statusText")
  | FetchOutcome.transportError => Except.error (jstr "transport error")

/-- Observable page effects of one `getData` run: the value written to
`container.innerHTML` (`none` = the container is never touched) and the
number of `console.error` calls. -/
structure PageState where
  containerHTML : Option JsStr
  consoleErrors : Nat
deriving DecidableEq

/-- `getData`, from `src/static/webmention.js` lines 265-287 (fetch path):
the chain result feeds `callback`, and the final `.catch` turns every
rejection — non-2xx, malformed JSON, transport error, or a throwing
callback — into a single `console.error`, so no exception leaves
`getData`; totality of this function models that nothing is thrown to the
host page. -/
def getData (outcome : FetchOutcome) (callback : Response → JsStr) : PageState :=
  match fetchChain outcome with
  | Except.ok r => { containerHTML := some (callback r), consoleErrors := 0 }
  | Except.error _ => { containerHTML := none, consoleErrors := 1 }

/-- The failure taxonomy of the claim: non-2xx status, thrown transport
error, or malformed JSON. -/
def failureOutcome : FetchOutcome → Bool
  | FetchOutcome.ok status body => !(200 ≤ status && status < 300) || body.isNone
  | FetchOutcome.transportError => true

/-! ## Helper lemmas -/

theorem replaceChar_of_not_mem {c : Char} {rep : JsStr} :
    ∀ {l : JsStr}, c ∉ l → replaceChar c rep l = l := by
  intro l
  induction l with
  | nil => intro _; rfl
  | cons a as ih =>
    intro h
    have ha : a ≠ c := fun e => h (e ▸ List.mem_cons_self a as)
    have has : c ∉ as := fun e => h (List.mem_cons_of_mem a e)
    simp [replaceChar] at ih ⊢
    simp [ha, ih has]

theorem mem_replaceChar {c x : Char} {rep l : JsStr} :
    x ∈ replaceChar c rep l → x ∈ rep ∨ (x ∈ l ∧ x ≠ c) := by
  induction l with
  | nil => intro h; simp [replaceChar] at h
  | cons a as ih =>
    intro h
    simp only [replaceChar, List.map_cons, List.flatten_cons] at h
    rcases List.mem_append.mp h with h1 | h2
    · by_cases hac : a = c
      · subst hac; simp at h1; exact Or.inl h1
      · simp [hac] at h1
        rw [h1]
        exact Or.inr ⟨List.mem_cons_self a as, hac⟩
    · rcases ih h2 with h3 | ⟨h4, h5⟩
      · exact Or.inl h3
      · exact Or.inr ⟨List.mem_cons_of_mem a h4, h5⟩

theorem leadsWith_append (pat b : JsStr) : leadsWith pat (pat ++ b) = true := by
  induction pat with
  | nil => rfl
  | cons p ps ih => simp [leadsWith, ih]

theorem containsSeg_intro (pat l a b : JsStr) (h : l = a ++ pat ++ b) :
    containsSeg pat l = true := by
  subst h
  unfold containsSeg
  rw [List.any_eq_true]
  refine ⟨a.length, ?_, ?_⟩
  · rw [List.mem_range]
    simp [Nat.lt_succ_of_le]
  · rw [List.drop_append_of_le_length (by simp)]
    simp [leadsWith_append]

theorem containsSeg_append_right {pat b : JsStr} (a : JsStr)
    (h : containsSeg pat b = true) : containsSeg pat (a ++ b) = true := by
  unfold containsSeg at h
  rw [List.any_eq_true] at h
  obtain ⟨i, hi, hlw⟩ := h
  rw [List.mem_range] at hi
  refine containsSeg_intro pat _ (a ++ b.take i) (b.drop (i + pat.length)) ?_
  have hdrop : b.drop i = pat ++ b.drop (i + pat.length) := by
    have hpre : ∀ (p s : JsStr), leadsWith p s = true → s = p ++ s.drop p.length := by
      intro p
      induction p with
      | nil => intro s _; simp
      | cons x xs ihp =>
        intro s hs
        cases s with
        | nil => simp [leadsWith] at hs
        | cons y ys =>
          simp only [leadsWith, Bool.and_eq_true, beq_iff_eq] at hs
          obtain ⟨hxy, hrest⟩ := hs
          subst hxy
          simpa using ihp ys hrest
    have := hpre pat (b.drop i) hlw
    rw [this, List.drop_drop]
  calc a ++ b = a ++ (b.take i ++ b.drop i) := by rw [List.take_append_drop]
    _ = a ++ b.take i ++ pat ++ b.drop (i + pat.length) := by simp [hdrop]
    _ = (a ++ b.take i) ++ pat ++ b.drop (i + pat.length) := by simp

theorem containsSeg_append_left {pat a : JsStr} (b : JsStr)
    (h : containsSeg pat a = true) : containsSeg pat (a ++ b) = true := by
  unfold containsSeg at h
  rw [List.any_eq_true] at h
  obtain ⟨i, hi, hlw⟩ := h
  have hpre : ∀ (p s : JsStr), leadsWith p s = true → s = p ++ s.drop p.length := by
    intro p
    induction p with
    | nil => intro s _; simp
    | cons x xs ihp =>
      intro s hs
      cases s with
      | nil => simp [leadsWith] at hs
      | cons y ys =>
        simp only [leadsWith, Bool.and_eq_true, beq_iff_eq] at hs
        obtain ⟨hxy, hrest⟩ := hs
        subst hxy
        simpa using ihp ys hrest
  have hsplit := hpre pat (a.drop i) hlw
  refine containsSeg_intro pat _ (a.take i) ((a.drop i).drop pat.length ++ b) ?_
  calc a ++ b = a.take i ++ a.drop i ++ b := by rw [List.take_append_drop]
    _ = a.take i ++ (pat ++ (a.drop i).drop pat.length) ++ b := by rw [← hsplit]
    _ = a.take i ++ pat ++ ((a.drop i).drop pat.length ++ b) := by simp

/-! ## C5 — `escape` (`entities`) -/

/-- C5: `escape` replaces `&`, `<`, `>`, `"` by their named references with
the ampersand substitution first; on text containing none of the four
characters it is the identity, and on `<a>&"b"` it yields
`&lt;a&gt;&amp;&quot;b&quot;`. -/
theorem c5_entities_escape (text : JsStr) (h : noSpecialChars text = true) :
    entities text = text ∧
    entities (jstr "&") = jstr "&amp;" ∧
    entities (jstr "<") = jstr "&lt;" ∧
    entities (jstr ">") = jstr "&gt;" ∧
    entities (jstr "\"") = jstr "&quot;" ∧
    entities (jstr "<a>&\"b\"") = jstr "&lt;a&gt;&amp;&quot;b&quot;" := by
  refine ⟨?_, by decide, by decide, by decide, by decide, by decide⟩
  unfold noSpecialChars at h
  rw [List.all_eq_true] at h
  have hn : ∀ c : Char, c ∈ text →
      c ≠ '&' ∧ c ≠ '<' ∧ c ≠ '>' ∧ c ≠ '"' := by
    intro c hc
    have := h c hc
    simp only [Bool.not_eq_true', Bool.or_eq_false_iff, beq_eq_false_iff_ne] at this
    exact ⟨this.1.1.1, this.1.1.2, this.1.2, this.2⟩
  have h1 : replaceChar '&' (jstr "&amp;") text = text :=
    replaceChar_of_not_mem (fun hm => (hn '&' hm).1 rfl)
  have h2 : replaceChar '<' (jstr "&lt;") text = text :=
    replaceChar_of_not_mem (fun hm => (hn '<' hm).2.1 rfl)
  have h3 : replaceChar '>' (jstr "&gt;") text = text :=
    replaceChar_of_not_mem (fun hm => (hn '>' hm).2.2.1 rfl)
  have h4 : replaceChar '"' (jstr "&quot;") text = text :=
    replaceChar_of_not_mem (fun hm => (hn '"' hm).2.2.2 rfl)
  unfold entities
  rw [h1, h2, h3, h4]

/-- Witness for C5 at the plain text `"abc"`. -/
theorem c5_entities_escape_witness :
    entities (jstr "abc") = jstr "abc" ∧
    entities (jstr "&") = jstr "&amp;" ∧
    entities (jstr "<") = jstr "&lt;" ∧
    entities (jstr ">") = jstr "&gt;" ∧
    entities (jstr "\"") = jstr "&quot;" ∧
    entities (jstr "<a>&\"b\"") = jstr "&lt;a&gt;&amp;&quot;b&quot;" :=
  c5_entities_escape (jstr "abc") (by decide)

/-! ## C9 — `stripurl` on inputs without `//` -/

theorem jsIndexOf_eq_neg_one {l pat : JsStr}
    (h : containsSeg pat l = false) : jsIndexOf l pat = -1 := by
  unfold containsSeg at h
  unfold jsIndexOf
  have hfind : (List.range (l.length + 1)).find?
      (fun i => leadsWith pat (l.drop i)) = none := by
    rw [List.find?_eq_none]
    intro i hi
    rw [List.any_eq_false] at h
    simpa using h i hi
  rw [hfind]

/-- C9: on any string without `//`, `stripurl` returns the one-character
suffix (`substr` of the `-1` from `indexOf`), so two such inputs whose
final characters agree get the same deduplication key. -/
theorem c9_stripurl_no_slashes (u v : JsStr)
    (hu : containsSeg (jstr "//") u = false)
    (hv : containsSeg (jstr "//") v = false) :
    stripurl u = u.drop (u.length - 1) ∧
    (u.drop (u.length - 1) = v.drop (v.length - 1) → stripurl u = stripurl v) := by
  have key : ∀ w : JsStr, containsSeg (jstr "//") w = false →
      stripurl w = w.drop (w.length - 1) := by
    intro w hw
    unfold stripurl
    rw [jsIndexOf_eq_neg_one hw]
    rfl
  refine ⟨key u hu, fun h => ?_⟩
  rw [key u hu, key v hv, h]

/-- Witness for C9 at `"abc"` and `"xc"` (distinct inputs, same final
character `'c'`, same key). -/
theorem c9_stripurl_no_slashes_witness :
    stripurl (jstr "abc") = (jstr "abc").drop ((jstr "abc").length - 1) ∧
    ((jstr "abc").drop ((jstr "abc").length - 1) =
        (jstr "xc").drop ((jstr "xc").length - 1) →
      stripurl (jstr "abc") = stripurl (jstr "xc")) :=
  c9_stripurl_no_slashes (jstr "abc") (jstr "xc") (by decide) (by decide)

/-! ## C8 — failure handling of `getData` -/

/-- C8: on any failing outcome — non-2xx status, thrown transport error or
malformed JSON — and for any downstream callback, `getData` never touches
the container and logs exactly one diagnostic; `getData` being a total
function into `PageState` reflects that the closing `.catch` lets no
exception reach the host page. -/
theorem c8_getData_failure (outcome : FetchOutcome)
    (callback : Response → JsStr) (h : failureOutcome outcome = true) :
    getData outcome callback =
      { containerHTML := none, consoleErrors := 1 } := by
  cases outcome with
  | transportError => rfl
  | ok status body =>
    unfold failureOutcome at h
    rw [Bool.or_eq_true] at h
    rcases h with h2 | h3
    · rw [Bool.not_eq_true'] at h2
      simp [getData, fetchChain, h2]
    · cases body with
      | none =>
        cases hs : (decide (200 ≤ status) && decide (status < 300)) <;>
          simp [getData, fetchChain, hs]
      | some r => simp at h3

/-- Witness for C8 at a transport error with the real page callback. -/
theorem c8_getData_failure_witness :
    getData FetchOutcome.transportError
        (fun json => renderPage ⟨false, none⟩ false json.children) =
      { containerHTML := none, consoleErrors := 1 } :=
  c8_getData_failure FetchOutcome.transportError
    (fun json => renderPage ⟨false, none⟩ false json.children) (by decide)

/-! ## C3, C4 — `dedupe` -/

theorem dedupe_foldl_acc (ms : List Mention) :
    ∀ (acc : List Mention) (seen : List JsStr),
      ms.foldl
        (fun (st : List Mention × List JsStr) r =>
          let source := stripurl r.url
          if source ∈ st.2 then st
          else (st.1 ++ [r], source :: st.2)) (acc, seen) =
      (acc ++ (ms.foldl
        (fun (st : List Mention × List JsStr) r =>
          let source := stripurl r.url
          if source ∈ st.2 then st
          else (st.1 ++ [r], source :: st.2)) ([], seen)).1,
       (ms.foldl
        (fun (st : List Mention × List JsStr) r =>
          let source := stripurl r.url
          if source ∈ st.2 then st
          else (st.1 ++ [r], source :: st.2)) ([], seen)).2) := by
  induction ms with
  | nil => intro acc seen; simp
  | cons r rest ih =>
    intro acc seen
    by_cases h : stripurl r.url ∈ seen
    · simp only [List.foldl_cons, if_pos h]
      exact ih acc seen
    · simp only [List.foldl_cons, if_neg h, List.nil_append]
      rw [ih (acc ++ [r]), ih [r]]
      simp

theorem dedupe_foldl_spec (ms : List Mention) :
    ∀ seen : List JsStr,
      (ms.foldl
        (fun (st : List Mention × List JsStr) r =>
          let source := stripurl r.url
          if source ∈ st.2 then st
          else (st.1 ++ [r], source :: st.2)) ([], seen)).1 =
      dedupeSpec (ms.filter (fun x => !decide (dedupeKey x ∈ seen))) := by
  induction ms with
  | nil => intro seen; simp [dedupeSpec]
  | cons r rest ih =>
    intro seen
    by_cases h : stripurl r.url ∈ seen
    · have hkey : dedupeKey r ∈ seen := h
      simp only [List.foldl_cons, if_pos h, List.filter_cons, hkey]
      simp only [decide_eq_true_eq, hkey, decide_True, decide_False]
      rw [if_neg (by simp [hkey])]
      exact ih seen
    · have hkey : ¬ dedupeKey r ∈ seen := h
      simp only [List.foldl_cons, if_neg h, List.filter_cons, List.nil_append]
      rw [if_pos (by simp [hkey])]
      rw [dedupe_foldl_acc, ih (stripurl r.url :: seen)]
      rw [dedupeSpec]
      simp only [List.singleton_append, List.cons.injEq, true_and]
      rw [List.filter_filter]
      apply congrArg
      apply List.filter_congr
      intro x _
      by_cases hk : dedupeKey x = dedupeKey r <;>
        by_cases hs : dedupeKey x ∈ seen <;>
          simp [hk, hs, dedupeKey, bne, Bool.beq_eq_decide_eq]

theorem dedupe_eq_dedupeSpec (ms : List Mention) : dedupe ms = dedupeSpec ms := by
  unfold dedupe
  rw [dedupe_foldl_spec ms []]
  simp

theorem dedupeSpec_sublist : ∀ (n : Nat) (ms : List Mention),
    ms.length ≤ n → List.Sublist (dedupeSpec ms) ms := by
  intro n
  induction n with
  | zero =>
    intro ms hms
    rw [List.length_eq_zero.mp (Nat.le_zero.mp hms)]
    simp [dedupeSpec]
  | succ k ih =>
    intro ms hms
    cases ms with
    | nil => simp [dedupeSpec]
    | cons r rest =>
      rw [dedupeSpec]
      apply List.Sublist.cons₂
      have hlen : (rest.filter (fun x => dedupeKey x != dedupeKey r)).length ≤ k := by
        have := List.length_filter_le (fun x => dedupeKey x != dedupeKey r) rest
        have hr : rest.length ≤ k := Nat.le_of_succ_le_succ hms
        omega
      exact (ih _ hlen).trans (List.filter_sublist rest)

theorem dedupeSpec_pairwise : ∀ (n : Nat) (ms : List Mention),
    ms.length ≤ n →
    (dedupeSpec ms).Pairwise (fun a b => dedupeKey a ≠ dedupeKey b) := by
  intro n
  induction n with
  | zero =>
    intro ms hms
    rw [List.length_eq_zero.mp (Nat.le_zero.mp hms)]
    simp [dedupeSpec]
  | succ k ih =>
    intro ms hms
    cases ms with
    | nil => simp [dedupeSpec]
    | cons r rest =>
      rw [dedupeSpec]
      apply List.Pairwise.cons
      · intro b hb
        have hmem : b ∈ rest.filter (fun x => dedupeKey x != dedupeKey r) :=
          (dedupeSpec_sublist _ _ (Nat.le_refl _)).mem hb
        have := List.of_mem_filter hmem
        intro hEq
        simp [hEq] at this
      · have hlen : (rest.filter (fun x => dedupeKey x != dedupeKey r)).length ≤ k := by
          have := List.length_filter_le (fun x => dedupeKey x != dedupeKey r) rest
          have hr : rest.length ≤ k := Nat.le_of_succ_le_succ hms
          omega
        exact ih _ hlen

theorem dedupeSpec_of_pairwise :
    ∀ ms : List Mention,
      ms.Pairwise (fun a b => dedupeKey a ≠ dedupeKey b) → dedupeSpec ms = ms := by
  intro ms
  induction ms with
  | nil => intro _; simp [dedupeSpec]
  | cons r rest ih =>
    intro h
    rw [dedupeSpec]
    have hself : rest.filter (fun x => dedupeKey x != dedupeKey r) = rest := by
      apply List.filter_eq_self.mpr
      intro x hx
      have := (List.pairwise_cons.mp h).1 x hx
      simp [bne]
      exact fun e => this e.symm
    rw [hself, ih (List.pairwise_cons.mp h).2]

/-- C3: `dedupe` agrees with the spec's first-occurrence filter on the
scheme-stripped `url` key (so a mention is emitted iff no earlier mention
shares its key), survivors keep their input order (the output is a sublist
of the input), and the keys of the `http:` and `https:` variants of one
URL coincide. -/
theorem c3_dedupe_first_occurrence (ms : List Mention) :
    dedupe ms = dedupeSpec ms ∧
    List.Sublist (dedupe ms) ms ∧
    stripurl (jstr "http://a.example/x") = stripurl (jstr "https://a.example/x") := by
  refine ⟨dedupe_eq_dedupeSpec ms, ?_, by decide⟩
  rw [dedupe_eq_dedupeSpec ms]
  exact dedupeSpec_sublist ms.length ms (Nat.le_refl _)

/-- C4: `dedupe` is idempotent. -/
theorem c4_dedupe_idempotent (ms : List Mention) :
    dedupe (dedupe ms) = dedupe ms := by
  rw [dedupe_eq_dedupeSpec ms, dedupe_eq_dedupeSpec (dedupeSpec ms)]
  exact dedupeSpec_of_pairwise _
    (dedupeSpec_pairwise ms.length ms (Nat.le_refl _))

/-! ## C1, C2 — classification -/

theorem classify_false_fold (ms : List Mention) :
    ∀ (a b : List Mention),
      ms.foldl
        (fun st c =>
          match destOf c with
          | some Dest.comments => (st.1 ++ [c], st.2)
          | some Dest.collects => (st.1, st.2 ++ [c])
          | none => st) (a, b) =
      (a ++ ms.filter (fun m => decide (destOf m = some Dest.comments)),
       b ++ ms.filter (fun m => decide (destOf m = some Dest.collects))) := by
  induction ms with
  | nil => intro a b; simp
  | cons c rest ih =>
    intro a b
    rcases hdest : destOf c with _ | dest
    · simp only [List.foldl_cons, hdest]
      rw [ih a b]
      simp [hdest]
    · cases dest
      · simp only [List.foldl_cons, hdest]
        rw [ih (a ++ [c]) b]
        simp [hdest]
      · simp only [List.foldl_cons, hdest]
        rw [ih a (b ++ [c])]
        simp [hdest]

theorem classify_true_fold (ms : List Mention) :
    ∀ acc : List Mention,
      ms.foldl
        (fun acc c =>
          match destOf c with
          | some _ => acc ++ [c]
          | none => acc) acc =
      acc ++ ms.filter (fun m => (destOf m).isSome) := by
  induction ms with
  | nil => intro acc; simp
  | cons c rest ih =>
    intro acc
    rcases hdest : destOf c with _ | dest
    · simp only [List.foldl_cons, hdest]
      rw [ih acc]
      simp [hdest]
    · simp only [List.foldl_cons, hdest]
      rw [ih (acc ++ [c])]
      simp [hdest]

theorem destOf_eq_comments (m : Mention) :
    decide (destOf m = some Dest.comments) =
      (decide (m.wmProperty = some (jstr "in-reply-to")) ||
       decide (m.wmProperty = some (jstr "mention-of")) ||
       decide (m.wmProperty = some (jstr "rsvp"))) := by
  rcases hp : m.wmProperty with _ | p
  · simp [destOf, hp]
  · simp only [destOf, hp]
    unfold mappingDest
    split_ifs with h1 h2 h3 h4 h5 h6 h7
    · subst h1; decide
    · subst h2; decide
    · subst h3; decide
    · subst h4; decide
    · subst h5; decide
    · subst h6; decide
    · subst h7; decide
    · simp [h1, h6, h7]

theorem destOf_eq_collects (m : Mention) :
    decide (destOf m = some Dest.collects) =
      (decide (m.wmProperty = some (jstr "like-of")) ||
       decide (m.wmProperty = some (jstr "repost-of")) ||
       decide (m.wmProperty = some (jstr "bookmark-of")) ||
       decide (m.wmProperty = some (jstr "follow-of"))) := by
  rcases hp : m.wmProperty with _ | p
  · simp [destOf, hp]
  · simp only [destOf, hp]
    unfold mappingDest
    split_ifs with h1 h2 h3 h4 h5 h6 h7
    · subst h1; decide
    · subst h2; decide
    · subst h3; decide
    · subst h4; decide
    · subst h5; decide
    · subst h6; decide
    · subst h7; decide
    · simp [h2, h3, h4, h5]

theorem destOf_recognized (m : Mention) :
    (destOf m).isSome =
      (decide (m.wmProperty = some (jstr "in-reply-to")) ||
       decide (m.wmProperty = some (jstr "like-of")) ||
       decide (m.wmProperty = some (jstr "repost-of")) ||
       decide (m.wmProperty = some (jstr "bookmark-of")) ||
       decide (m.wmProperty = some (jstr "follow-of")) ||
       decide (m.wmProperty = some (jstr "mention-of")) ||
       decide (m.wmProperty = some (jstr "rsvp"))) := by
  rcases hp : m.wmProperty with _ | p
  · simp [destOf, hp]
  · simp only [destOf, hp]
    unfold mappingDest
    split_ifs with h1 h2 h3 h4 h5 h6 h7
    · subst h1; decide
    · subst h2; decide
    · subst h3; decide
    · subst h4; decide
    · subst h5; decide
    · subst h6; decide
    · subst h7; decide
    · simp [h1, h2, h3, h4, h5, h6, h7]

/-- C1: with the merge flag unset, `classify` puts the `in-reply-to`,
`mention-of` and `rsvp` mentions into the comments bucket and the
`like-of`, `repost-of`, `bookmark-of` and `follow-of` mentions into the
reactions bucket, both as order-preserving filters of the input, and every
mention lands in exactly one bucket (none for an absent or unmapped
`wm-property`). -/
theorem c1_classify_partition (ms : List Mention) :
    (classify false ms).1 = ms.filter (fun m =>
        decide (m.wmProperty = some (jstr "in-reply-to")) ||
        decide (m.wmProperty = some (jstr "mention-of")) ||
        decide (m.wmProperty = some (jstr "rsvp"))) ∧
    (classify false ms).2 = ms.filter (fun m =>
        decide (m.wmProperty = some (jstr "like-of")) ||
        decide (m.wmProperty = some (jstr "repost-of")) ||
        decide (m.wmProperty = some (jstr "bookmark-of")) ||
        decide (m.wmProperty = some (jstr "follow-of"))) ∧
    (∀ m : Mention,
        (classify false ms).1.count m + (classify false ms).2.count m =
          if destOf m = none then 0 else ms.count m) := by
  have hcl : classify false ms =
      (ms.filter (fun m => decide (destOf m = some Dest.comments)),
       ms.filter (fun m => decide (destOf m = some Dest.collects))) := by
    unfold classify
    simp only [Bool.false_eq_true, if_false]
    rw [classify_false_fold ms [] []]
    simp
  refine ⟨?_, ?_, ?_⟩
  · rw [hcl]
    exact List.filter_congr (fun m _ => destOf_eq_comments m)
  · rw [hcl]
    exact List.filter_congr (fun m _ => destOf_eq_collects m)
  · intro m
    rw [hcl]
    rcases hdest : destOf m with _ | dest
    · have h1 : (ms.filter (fun m => decide (destOf m = some Dest.comments))).count m = 0 :=
        List.count_eq_zero.mpr
          (fun hmem => by have := List.of_mem_filter hmem; simp [hdest] at this)
      have h2 : (ms.filter (fun m => decide (destOf m = some Dest.collects))).count m = 0 :=
        List.count_eq_zero.mpr
          (fun hmem => by have := List.of_mem_filter hmem; simp [hdest] at this)
      simp [h1, h2, hdest]
    · cases dest
      · have h1 := List.count_filter
          (p := fun m => decide (destOf m = some Dest.comments))
          (l := ms) (a := m) (by simp [hdest])
        have h2 : (ms.filter (fun m => decide (destOf m = some Dest.collects))).count m = 0 :=
          List.count_eq_zero.mpr
            (fun hmem => by have := List.of_mem_filter hmem; simp [hdest] at this)
        simp [h1, h2, hdest]
      · have h1 : (ms.filter (fun m => decide (destOf m = some Dest.comments))).count m = 0 :=
          List.count_eq_zero.mpr
            (fun hmem => by have := List.of_mem_filter hmem; simp [hdest] at this)
        have h2 := List.count_filter
          (p := fun m => decide (destOf m = some Dest.collects))
          (l := ms) (a := m) (by simp [hdest])
        simp [h1, h2, hdest]

/-- C2: with `comments-are-reactions` truthy, the comments bucket and the
reactions bucket are the same sequence holding every recognized mention
exactly once in input order, and the page renders only the reactions
section (the dedicated comments section is skipped). -/
theorem c2_classify_merge (cfg : Cfg) (ms : List Mention) :
    (classify true ms).1 = (classify true ms).2 ∧
    (classify true ms).1 = ms.filter (fun m =>
        decide (m.wmProperty = some (jstr "in-reply-to")) ||
        decide (m.wmProperty = some (jstr "like-of")) ||
        decide (m.wmProperty = some (jstr "repost-of")) ||
        decide (m.wmProperty = some (jstr "bookmark-of")) ||
        decide (m.wmProperty = some (jstr "follow-of")) ||
        decide (m.wmProperty = some (jstr "mention-of")) ||
        decide (m.wmProperty = some (jstr "rsvp"))) ∧
    renderPage cfg true ms =
      (if (classify true ms).2.length > 0
       then formatReactions cfg (dedupe (classify true ms).2)
       else []) := by
  have hcl : classify true ms =
      (ms.filter (fun m => (destOf m).isSome),
       ms.filter (fun m => (destOf m).isSome)) := by
    unfold classify
    simp only [if_true]
    rw [classify_true_fold ms []]
    simp
  refine ⟨by rw [hcl], ?_, ?_⟩
  · rw [hcl]
    exact List.filter_congr (fun m _ => destOf_recognized m)
  · unfold renderPage
    simp

/-! ## C6 — word-budget truncation -/

theorem truncateWords_some (n : Nat) (text : JsStr) :
    truncateWords (some n) text =
      if n = 0 then text
      else
        if n < ((splitChar ' ' (collapseWs text)).take (n + 1)).length then
          joinSep ' ' ((((splitChar ' ' (collapseWs text)).take (n + 1)).set (n - 1)
            (((splitChar ' ' (collapseWs text)).take (n + 1)).getD (n - 1) [] ++
              jstr "&hellip;")).take n)
        else text := rfl

theorem splitChar_ne_nil (sep : Char) : ∀ l : JsStr, splitChar sep l ≠ [] := by
  intro l
  induction l with
  | nil => simp [splitChar]
  | cons c rest ih =>
    by_cases h : c = sep
    · simp [splitChar, h]
    · simp only [splitChar, if_neg h]
      rcases hsp : splitChar sep rest with _ | ⟨w, ws⟩
      · simp
      · simp

theorem not_mem_of_mem_splitChar (sep : Char) :
    ∀ (l : JsStr) (w : JsStr), w ∈ splitChar sep l → sep ∉ w := by
  intro l
  induction l with
  | nil =>
    intro w hw
    simp [splitChar] at hw
    simp [hw]
  | cons c rest ih =>
    intro w hw
    by_cases h : c = sep
    · simp only [splitChar, if_pos h] at hw
      rcases List.mem_cons.mp hw with h1 | h2
      · simp [h1]
      · exact ih w h2
    · simp only [splitChar, if_neg h] at hw
      rcases hsp : splitChar sep rest with _ | ⟨x, xs⟩
      · rw [hsp] at hw
        simp at hw
        subst hw
        simp
        exact fun e => h e.symm
      · rw [hsp] at hw
        rcases List.mem_cons.mp hw with h1 | h2
        · subst h1
          intro hmem
          rcases List.mem_cons.mp hmem with h3 | h4
          · exact h h3.symm
          · exact ih x (by rw [hsp]; exact List.mem_cons_self x xs) h4
        · exact ih w (by rw [hsp]; exact List.mem_cons_of_mem x h2)

theorem splitChar_sep_free (sep : Char) :
    ∀ w : JsStr, sep ∉ w → splitChar sep w = [w] := by
  intro w
  induction w with
  | nil => intro _; rfl
  | cons c rest ih =>
    intro h
    have hc : c ≠ sep := fun e => h (e ▸ List.mem_cons_self c rest)
    have hrest : sep ∉ rest := fun e => h (List.mem_cons_of_mem c e)
    simp only [splitChar, if_neg hc, ih hrest]

theorem splitChar_append_sep (sep : Char) :
    ∀ (w b : JsStr), sep ∉ w →
      splitChar sep (w ++ sep :: b) = w :: splitChar sep b := by
  intro w
  induction w with
  | nil =>
    intro b _
    simp [splitChar]
  | cons c rest ih =>
    intro b h
    have hc : c ≠ sep := fun e => h (e ▸ List.mem_cons_self c rest)
    have hrest : sep ∉ rest := fun e => h (List.mem_cons_of_mem c e)
    rw [List.cons_append]
    simp only [splitChar, if_neg hc]
    rw [ih b hrest]

theorem splitChar_joinSep (sep : Char) :
    ∀ ws : List JsStr, ws ≠ [] → (∀ w ∈ ws, sep ∉ w) →
      splitChar sep (joinSep sep ws) = ws := by
  intro ws
  induction ws with
  | nil => intro h; exact absurd rfl h
  | cons w rest ih =>
    intro _ hall
    cases rest with
    | nil =>
      have hj : joinSep sep [w] = w := by simp [joinSep, List.intercalate]
      rw [hj]
      exact splitChar_sep_free sep w (hall w (List.mem_cons_self w []))
    | cons w2 rest2 =>
      have hjoin : joinSep sep (w :: w2 :: rest2) =
          w ++ sep :: joinSep sep (w2 :: rest2) := rfl
      rw [hjoin,
        splitChar_append_sep sep w _ (hall w (List.mem_cons_self w _)),
        ih (by simp) (fun x hx => hall x (List.mem_cons_of_mem w hx))]

/-- C6 counterexample: with a budget of 3 the text `"a  b"` (two words,
separated by a run of two spaces) is returned verbatim — the claimed
whitespace collapsing does not reach the output when no truncation
happens. -/
theorem c6_truncate_counterexample :
    truncateWords (some 3) (jstr "a  b") = jstr "a  b" ∧
    collapseWs (jstr "a  b") = jstr "a b" ∧
    truncateWords (some 3) (jstr "a  b") ≠ collapseWs (jstr "a  b") := by
  refine ⟨by decide, by decide, by decide⟩

/-- C6 (amended): with a budget `n ≥ 1`, when splitting the
whitespace-collapsed text on single spaces yields more than `n` fields the
output is the first `n` fields joined by spaces with `&hellip;` appended
to the `n`-th, and then splitting the output on spaces yields exactly `n`
fields; with at most `n` fields, or with the budget unset, the text is
returned unchanged (in particular without whitespace collapsing).  With
`wordcount=3`, `"one two three four five"` renders as
`"one two three&hellip;"`. -/
theorem c6_truncateWords_budget (text : JsStr) (n : Nat) (hn : 1 ≤ n) :
    truncateWords none text = text ∧
    ((splitChar ' ' (collapseWs text)).length ≤ n →
      truncateWords (some n) text = text) ∧
    (n < (splitChar ' ' (collapseWs text)).length →
      truncateWords (some n) text =
        joinSep ' ' ((splitChar ' ' (collapseWs text)).take (n - 1) ++
          [(splitChar ' ' (collapseWs text)).getD (n - 1) [] ++ jstr "&hellip;"]) ∧
      (splitChar ' ' (truncateWords (some n) text)).length = n) ∧
    truncateWords (some 3) (jstr "one two three four five") =
      jstr "one two three&hellip;" := by
  have hn0 : n ≠ 0 := Nat.one_le_iff_ne_zero.mp hn
  refine ⟨rfl, ?_, ?_, by decide⟩
  · intro hle
    rw [truncateWords_some, if_neg hn0]
    have hwlen : ((splitChar ' ' (collapseWs text)).take (n + 1)).length ≤ n := by
      rw [List.length_take]
      omega
    rw [if_neg (by omega)]
  · intro hgt
    set fields := splitChar ' ' (collapseWs text) with hfields
    set v : JsStr := fields.getD (n - 1) [] ++ jstr "&hellip;" with hv
    have hlen1 : (fields.take (n + 1)).length = n + 1 := by
      rw [List.length_take]
      omega
    have hcond : n < (fields.take (n + 1)).length := by omega
    have hgetD : (fields.take (n + 1)).getD (n - 1) [] = fields.getD (n - 1) [] := by
      rw [List.getD_eq_getElem?_getD, List.getD_eq_getElem?_getD,
        List.getElem?_take, if_pos (by omega)]
    have hlenA : ((fields.take (n + 1)).take (n - 1)).length = n - 1 := by
      rw [List.length_take, hlen1]
      omega
    have hidx : n - 1 + 1 = n := by omega
    have hstep1 : (fields.take (n + 1)).set (n - 1) v =
        (fields.take (n + 1)).take (n - 1) ++ v :: (fields.take (n + 1)).drop n := by
      rw [List.set_eq_take_cons_drop v (show n - 1 < (fields.take (n + 1)).length by omega)]
      rw [hidx]
    have hstep2 : ((fields.take (n + 1)).take (n - 1) ++
          v :: (fields.take (n + 1)).drop n).take n =
        (fields.take (n + 1)).take (n - 1) ++ [v] := by
      rw [List.take_append_eq_append_take, hlenA]
      have h5 : ((fields.take (n + 1)).take (n - 1)).take n =
          (fields.take (n + 1)).take (n - 1) := by
        rw [List.take_take]
        congr 1
        omega
      rw [h5]
      have h6 : n - (n - 1) = 1 := by omega
      rw [h6]
      simp
    have hstep3 : (fields.take (n + 1)).take (n - 1) = fields.take (n - 1) := by
      rw [List.take_take]
      congr 1
      omega
    have heq : truncateWords (some n) text =
        joinSep ' ' (fields.take (n - 1) ++ [v]) := by
      rw [truncateWords_some, if_neg hn0, ← hfields, if_pos hcond, hgetD, ← hv,
        hstep1, hstep2, hstep3]
    refine ⟨heq, ?_⟩
    rw [heq]
    have hmemfree : ∀ w ∈ fields.take (n - 1) ++ [v], ' ' ∉ w := by
      intro w hw
      rcases List.mem_append.mp hw with h1 | h2
      · exact not_mem_of_mem_splitChar ' ' (collapseWs text) w
          (hfields ▸ List.mem_of_mem_take h1)
      · simp only [List.mem_singleton] at h2
        subst h2
        rw [hv]
        intro hmem
        rcases List.mem_append.mp hmem with h3 | h4
        · have hfd : fields.getD (n - 1) [] ∈ fields := by
            rw [List.getD_eq_getElem?_getD]
            rw [List.getElem?_eq_getElem (show n - 1 < fields.length by omega)]
            exact List.getElem_mem _
          exact not_mem_of_mem_splitChar ' ' (collapseWs text)
            _ (hfields ▸ hfd) h3
        · revert h4
          decide
    rw [splitChar_joinSep ' ' _ (by simp) hmemfree]
    rw [List.length_append, List.length_take]
    simp
    omega

/-- Witness for C6 at `wordcount = 3` and the five-word scenario text. -/
theorem c6_truncateWords_budget_witness :
    truncateWords none (jstr "one two three four five") =
        jstr "one two three four five" ∧
    ((splitChar ' ' (collapseWs (jstr "one two three four five"))).length ≤ 3 →
      truncateWords (some 3) (jstr "one two three four five") =
        jstr "one two three four five") ∧
    (3 < (splitChar ' ' (collapseWs (jstr "one two three four five"))).length →
      truncateWords (some 3) (jstr "one two three four five") =
        joinSep ' '
          ((splitChar ' ' (collapseWs (jstr "one two three four five"))).take (3 - 1) ++
            [(splitChar ' ' (collapseWs (jstr "one two three four five"))).getD (3 - 1) []
              ++ jstr "&hellip;"]) ∧
      (splitChar ' '
        (truncateWords (some 3) (jstr "one two three four five"))).length = 3) ∧
    truncateWords (some 3) (jstr "one two three four five") =
      jstr "one two three&hellip;" :=
  c6_truncateWords_budget (jstr "one two three four five") 3 (by decide)

/-! ## C7 — request URL construction -/

theorem foldl_append_flatten (f : JsStr → JsStr) :
    ∀ (l : List JsStr) (init : JsStr),
      l.foldl (fun acc x => acc ++ f x) init = init ++ (l.map f).flatten := by
  intro l
  induction l with
  | nil => intro init; simp
  | cons x rest ih =>
    intro init
    rw [List.foldl_cons, ih (init ++ f x)]
    simp

theorem encodeURIComponent_chars (pred : Char → Bool)
    (hp : ∀ c : Char, uriUnreserved c = true → pred c = true)
    (hpct : pred '%' = true)
    (hhex : (jstr "0123456789ABCDEF").all pred = true) :
    ∀ s : JsStr, (encodeURIComponent s).all pred = true := by
  have hhex' : ∀ c ∈ jstr "0123456789ABCDEF", pred c = true :=
    List.all_eq_true.mp hhex
  have hdigit : ∀ m : Nat, pred (hexDigitChar m) = true := by
    intro m
    apply hhex'
    unfold hexDigitChar
    rw [List.getD_eq_getElem?_getD]
    rcases hg : (jstr "0123456789ABCDEF")[m]? with _ | c
    · simp
      decide
    · simp
      exact List.getElem?_mem hg
  intro s
  induction s with
  | nil => rfl
  | cons c rest ih =>
    unfold encodeURIComponent at ih ⊢
    simp only [List.map_cons, List.flatten_cons, List.all_append]
    rw [ih, Bool.and_true]
    by_cases hu : uriUnreserved c = true
    · simp [hu, hp c hu]
    · simp only [hu, Bool.false_eq_true, if_false]
      rw [List.all_eq_true]
      intro x hx
      rw [List.mem_flatten] at hx
      obtain ⟨pb, hpb, hxpb⟩ := hx
      rw [List.mem_map] at hpb
      obtain ⟨b, _, hb⟩ := hpb
      subst hb
      simp only [percentByte, List.mem_cons, List.not_mem_nil, or_false] at hxpb
      rcases hxpb with h1 | h2 | h3
      · rw [h1]; exact hpct
      · rw [h2]; exact hdigit _
      · rw [h3]; exact hdigit _

/-- C7: the request URL is the fixed endpoint carrying the `per-page`,
`sort-by` and `sort-dir` parameters followed, for each base page in input
order, by exactly the two `target[]` parameters for the `http:` and
`https:` scheme variants; every character the encoder emits is an
unreserved character, a `%`, or an upper-case hex digit, and in particular
the encoded values contain no raw `&`, `=`, `[` or `]`. -/
theorem c7_apiURL_targets (maxWebmentions sortBy sortDir : JsStr)
    (pages : List JsStr) :
    apiURL maxWebmentions sortBy sortDir pages =
      jstr "https://webmention.io/api/mentions.jf2?per-page=" ++ maxWebmentions ++
      jstr "&sort-by=" ++ sortBy ++ jstr "&sort-dir=" ++ sortDir ++
      (pages.map (fun path =>
        jstr "&target[]=" ++ encodeURIComponent (jstr "http:" ++ path) ++
        jstr "&target[]=" ++ encodeURIComponent (jstr "https:" ++ path))).flatten ∧
    (∀ s : JsStr, (encodeURIComponent s).all
      (fun c => uriUnreserved c || c == '%' ||
        (jstr "0123456789ABCDEF").contains c) = true) ∧
    (∀ s : JsStr, (encodeURIComponent s).all
      (fun c => !(c == '&') && !(c == '=') && !(c == '[') && !(c == ']')) = true) := by
  refine ⟨?_, ?_, ?_⟩
  · unfold apiURL
    rw [foldl_append_flatten targetParams pages]
    have hfun : targetParams = fun path =>
        jstr "&target[]=" ++
          (encodeURIComponent (jstr "http:" ++ path) ++
            (jstr "&target[]=" ++ encodeURIComponent (jstr "https:" ++ path))) := by
      funext path
      simp [targetParams, List.append_assoc]
    rw [hfun]
    simp [List.append_assoc]
  · apply encodeURIComponent_chars
    · intro c hu
      simp [hu]
    · decide
    · decide
  · apply encodeURIComponent_chars
    · intro c hu
      by_cases h1 : c = '&'
      · subst h1; exact absurd hu (by decide)
      · by_cases h2 : c = '='
        · subst h2; exact absurd hu (by decide)
        · by_cases h3 : c = '['
          · subst h3; exact absurd hu (by decide)
          · by_cases h4 : c = ']'
            · subst h4; exact absurd hu (by decide)
            · simp [h1, h2, h3, h4]
    · decide
    · decide

/-! ## C10 — raw link and name fields, escaped author and body fields -/

/-- C10: every rendered anchor — the reaction marker in `reactImage` and
the source link of a comment item — carries the chosen link field
(`url`, or `wm-source` under `prevent-spoofing`) verbatim in its `href`
attribute, and a truthy comment `name` is inserted verbatim into the
span; by contrast a truthy author photo URL and author name appear only
through `entities`, and body text only as
`truncateWords (entities text)`; each comment item appears inside
`formatComments` of any bucket containing the mention. -/
theorem c10_rendered_fields (cfg : Cfg) (r c : Mention) (ic : Bool)
    (hname : truthy c.name = true) :
    containsSeg (jstr "\" href=\"" ++ mentionLink cfg r ++ jstr "\">")
      (reactImage cfg r ic) = true ∧
    containsSeg (jstr " <a class=\"source\" rel=\"nofollow ugc\" href=\"" ++
        mentionLink cfg c ++ jstr "\">") (commentItem cfg c) = true ∧
    (∀ nm : JsStr, c.name = some nm →
      containsSeg (jstr "<span class=\"name\">" ++ nm ++ jstr "</span>")
        (commentItem cfg c) = true) ∧
    (∀ photo : JsStr, authorPhotoTruthy r = some photo →
      containsSeg (jstr "<img src=\"" ++ entities photo ++
          jstr "\" loading=\"lazy\" decoding=\"async\" alt=\"")
        (reactImage cfg r ic) = true) ∧
    (∀ nm : JsStr, authorNameTruthy r = some nm →
      containsSeg (jstr "title=\"" ++ entities nm ++ jstr " ")
        (reactImage cfg r ic) = true) ∧
    (∀ txt : JsStr, contentTextTruthy r = some txt → ic = false →
      containsSeg (jstr ": " ++
          truncateWords cfg.textMaxWords (entities txt) ++ jstr "\" href=\"")
        (reactImage cfg r ic) = true) ∧
    (∀ cs : List Mention, c ∈ cs →
      containsSeg (commentItem cfg c) (formatComments cfg cs) = true) := by
  refine ⟨?_, ?_, ?_, ?_, ?_, ?_, ?_⟩
  · exact containsSeg_intro _ _
      (jstr "<a class=\"reaction\" rel=\"nofollow ugc\" title=\"" ++ whoOf r ++
        jstr " " ++ responseOf cfg r ic)
      (photoImgOf r ++ emojiOf r ++ rsvpSubOf r ++ jstr "</a>")
      (by simp [reactImage, List.append_assoc])
  · exact containsSeg_intro _ _
      (jstr "<li>" ++ reactImage cfg c true)
      (sourceLabelOf c ++ jstr "</a>: " ++ jstr "<span class=\"" ++
        (linkClassText cfg c).1 ++ jstr "\">" ++ (linkClassText cfg c).2 ++
        jstr "</span>" ++ jstr "</li>")
      (by simp [commentItem, List.append_assoc])
  · intro nm hcn
    have hne : nm.isEmpty = false := by
      unfold truthy at hname
      rw [hcn] at hname
      simpa using hname
    have hlp : linkClassText cfg c = (jstr "name", nm) := by
      simp [linkClassText, hcn, hne]
    have hsplit : (jstr "<span class=\"name\">" : JsStr) =
        jstr "<span class=\"" ++ jstr "name" ++ jstr "\">" := by decide
    apply containsSeg_intro _ _
      (jstr "<li>" ++ reactImage cfg c true ++
        jstr " <a class=\"source\" rel=\"nofollow ugc\" href=\"" ++
        mentionLink cfg c ++ jstr "\">" ++ sourceLabelOf c ++ jstr "</a>: ")
      (jstr "</li>")
    rw [hsplit]
    simp [commentItem, hlp, List.append_assoc]
  · intro photo hphoto
    have h1 : containsSeg (jstr "<img src=\"" ++ entities photo ++
        jstr "\" loading=\"lazy\" decoding=\"async\" alt=\"")
        (photoImgOf r) = true := by
      apply containsSeg_intro _ _ [] (whoOf r ++ jstr "\">")
      simp [photoImgOf, hphoto, List.append_assoc]
    have h2 : reactImage cfg r ic =
        (jstr "<a class=\"reaction\" rel=\"nofollow ugc\" title=\"" ++ whoOf r ++
          jstr " " ++ responseOf cfg r ic ++ jstr "\" href=\"" ++
          mentionLink cfg r ++ jstr "\">") ++
        (photoImgOf r ++ (emojiOf r ++ rsvpSubOf r ++ jstr "</a>")) := by
      simp [reactImage, List.append_assoc]
    rw [h2]
    exact containsSeg_append_right _ (containsSeg_append_left _ h1)
  · intro nm hn
    have hwho : whoOf r = entities nm := by
      simp [whoOf, hn]
    have hsplit : (jstr "<a class=\"reaction\" rel=\"nofollow ugc\" title=\"" : JsStr) =
        jstr "<a class=\"reaction\" rel=\"nofollow ugc\" " ++ jstr "title=\"" := by
      decide
    apply containsSeg_intro _ _
      (jstr "<a class=\"reaction\" rel=\"nofollow ugc\" ")
      (responseOf cfg r ic ++ jstr "\" href=\"" ++ mentionLink cfg r ++
        jstr "\">" ++ photoImgOf r ++ emojiOf r ++ rsvpSubOf r ++ jstr "</a>")
    rw [← hwho]
    conv in reactImage cfg r ic => rw [reactImage, hsplit]
    simp [List.append_assoc]
  · intro txt hct hic
    subst hic
    have hraw : rawContentText r = txt := by
      unfold contentTextTruthy at hct
      rcases hc : r.content with _ | ct
      · rw [hc] at hct; cases hct
      · simp only [hc] at hct
        rcases ht : ct.text with _ | s
        · simp [ht] at hct
        · simp only [ht] at hct
          by_cases he : s.isEmpty
          · simp [he] at hct
          · simp [he] at hct
            simp [rawContentText, hc, ht, hct]
    have hresp : responseOf cfg r false =
        verbOf r ++ jstr ": " ++
          truncateWords cfg.textMaxWords (entities txt) := by
      unfold responseOf
      rw [hct]
      simp [extractComment, hraw]
    apply containsSeg_intro _ _
      (jstr "<a class=\"reaction\" rel=\"nofollow ugc\" title=\"" ++ whoOf r ++
        jstr " " ++ verbOf r)
      (mentionLink cfg r ++ jstr "\">" ++ photoImgOf r ++ emojiOf r ++
        rsvpSubOf r ++ jstr "</a>")
    rw [reactImage, hresp]
    simp [List.append_assoc]
  · intro cs hcs
    obtain ⟨s, t, hst⟩ := List.append_of_mem hcs
    apply containsSeg_intro _ _
      (jstr "<h2>Responses</h2><ul class=\"comments\">" ++
        (s.map (commentItem cfg)).flatten)
      ((t.map (commentItem cfg)).flatten ++ jstr "</ul>")
    rw [formatComments, hst]
    simp [List.append_assoc]

/-- Witness for C10: a reaction whose `url` holds a double quote and an
angle bracket, and a comment with a truthy name, photo, author name and
body text. -/
theorem c10_rendered_fields_witness :
    (containsSeg (jstr "\" href=\"" ++
        mentionLink ⟨false, none⟩
          ⟨jstr "https://x/\"><script>", jstr "https://s/1",
            some (jstr "like-of"),
            some ⟨some (jstr "A&B"), some (jstr "https://p/\"i")⟩,
            some ⟨some (jstr "hi there")⟩, none, some (jstr "ti<tle")⟩ ++
        jstr "\">")
      (reactImage ⟨false, none⟩
        ⟨jstr "https://x/\"><script>", jstr "https://s/1",
          some (jstr "like-of"),
          some ⟨some (jstr "A&B"), some (jstr "https://p/\"i")⟩,
          some ⟨some (jstr "hi there")⟩, none, some (jstr "ti<tle")⟩
        false) = true) ∧
    (containsSeg (jstr " <a class=\"source\" rel=\"nofollow ugc\" href=\"" ++
        mentionLink ⟨false, none⟩
          ⟨jstr "https://x/\"><script>", jstr "https://s/1",
            some (jstr "like-of"),
            some ⟨some (jstr "A&B"), some (jstr "https://p/\"i")⟩,
            some ⟨some (jstr "hi there")⟩, none, some (jstr "ti<tle")⟩ ++
        jstr "\">")
      (commentItem ⟨false, none⟩
        ⟨jstr "https://x/\"><script>", jstr "https://s/1",
          some (jstr "like-of"),
          some ⟨some (jstr "A&B"), some (jstr "https://p/\"i")⟩,
          some ⟨some (jstr "hi there")⟩, none, some (jstr "ti<tle")⟩) = true) ∧
    (∀ nm : JsStr,
      (⟨jstr "https://x/\"><script>", jstr "https://s/1",
          some (jstr "like-of"),
          some ⟨some (jstr "A&B"), some (jstr "https://p/\"i")⟩,
          some ⟨some (jstr "hi there")⟩, none,
          some (jstr "ti<tle")⟩ : Mention).name = some nm →
      containsSeg (jstr "<span class=\"name\">" ++ nm ++ jstr "</span>")
        (commentItem ⟨false, none⟩
          ⟨jstr "https://x/\"><script>", jstr "https://s/1",
            some (jstr "like-of"),
            some ⟨some (jstr "A&B"), some (jstr "https://p/\"i")⟩,
            some ⟨some (jstr "hi there")⟩, none, some (jstr "ti<tle")⟩) = true) ∧
    (∀ photo : JsStr,
      authorPhotoTruthy
          ⟨jstr "https://x/\"><script>", jstr "https://s/1",
            some (jstr "like-of"),
            some ⟨some (jstr "A&B"), some (jstr "https://p/\"i")⟩,
            some ⟨some (jstr "hi there")⟩, none, some (jstr "ti<tle")⟩ =
        some photo →
      containsSeg (jstr "<img src=\"" ++ entities photo ++
          jstr "\" loading=\"lazy\" decoding=\"async\" alt=\"")
        (reactImage ⟨false, none⟩
          ⟨jstr "https://x/\"><script>", jstr "https://s/1",
            some (jstr "like-of"),
            some ⟨some (jstr "A&B"), some (jstr "https://p/\"i")⟩,
            some ⟨some (jstr "hi there")⟩, none, some (jstr "ti<tle")⟩
          false) = true) ∧
    (∀ nm : JsStr,
      authorNameTruthy
          ⟨jstr "https://x/\"><script>", jstr "https://s/1",
            some (jstr "like-of"),
            some ⟨some (jstr "A&B"), some (jstr "https://p/\"i")⟩,
            some ⟨some (jstr "hi there")⟩, none, some (jstr "ti<tle")⟩ =
        some nm →
      containsSeg (jstr "title=\"" ++ entities nm ++ jstr " ")
        (reactImage ⟨false, none⟩
          ⟨jstr "https://x/\"><script>", jstr "https://s/1",
            some (jstr "like-of"),
            some ⟨some (jstr "A&B"), some (jstr "https://p/\"i")⟩,
            some ⟨some (jstr "hi there")⟩, none, some (jstr "ti<tle")⟩
          false) = true) ∧
    (∀ txt : JsStr,
      contentTextTruthy
          ⟨jstr "https://x/\"><script>", jstr "https://s/1",
            some (jstr "like-of"),
            some ⟨some (jstr "A&B"), some (jstr "https://p/\"i")⟩,
            some ⟨some (jstr "hi there")⟩, none, some (jstr "ti<tle")⟩ =
        some txt → false = false →
      containsSeg (jstr ": " ++
          truncateWords (none : Option Nat) (entities txt) ++ jstr "\" href=\"")
        (reactImage ⟨false, none⟩
          ⟨jstr "https://x/\"><script>", jstr "https://s/1",
            some (jstr "like-of"),
            some ⟨some (jstr "A&B"), some (jstr "https://p/\"i")⟩,
            some ⟨some (jstr "hi there")⟩, none, some (jstr "ti<tle")⟩
          false) = true) ∧
    (∀ cs : List Mention,
      (⟨jstr "https://x/\"><script>", jstr "https://s/1",
          some (jstr "like-of"),
          some ⟨some (jstr "A&B"), some (jstr "https://p/\"i")⟩,
          some ⟨some (jstr "hi there")⟩, none,
          some (jstr "ti<tle")⟩ : Mention) ∈ cs →
      containsSeg
        (commentItem ⟨false, none⟩
          ⟨jstr "https://x/\"><script>", jstr "https://s/1",
            some (jstr "like-of"),
            some ⟨some (jstr "A&B"), some (jstr "https://p/\"i")⟩,
            some ⟨some (jstr "hi there")⟩, none, some (jstr "ti<tle")⟩)
        (formatComments ⟨false, none⟩ cs) = true) :=
  c10_rendered_fields ⟨false, none⟩
    ⟨jstr "https://x/\"><script>", jstr "https://s/1",
      some (jstr "like-of"),
      some ⟨some (jstr "A&B"), some (jstr "https://p/\"i")⟩,
      some ⟨some (jstr "hi there")⟩, none, some (jstr "ti<tle")⟩
    ⟨jstr "https://x/\"><script>", jstr "https://s/1",
      some (jstr "like-of"),
      some ⟨some (jstr "A&B"), some (jstr "https://p/\"i")⟩,
      some ⟨some (jstr "hi there")⟩, none, some (jstr "ti<tle")⟩
    false (by decide)

end Webmention
